import Mathlib

/-!
Verification development for the dune-weaver firmware (two source files:
src/esp32/esp32.ino and src/arduino_code/arduino_code.ino).

The firmware is embedded shallowly: C++ float/double arithmetic is idealized
as exact rational arithmetic over the field of rationals, the C double
constant M_PI is the exact rational value of the IEEE-754 double nearest pi,
and the C cast (long)x is truncation toward zero.  Stateful firmware globals
(currentTheta, currentRho, totalRevolutions, isFirstCoordinates, the two
stepper position references and their maximum speeds) become an explicit
state record that the handlers transform.  Serial output becomes a list of
emitted tokens.  The blocking stepper moves of the external AccelStepper
library are out of scope (the spec delegates them); a move is modelled by
the absolute step targets the firmware hands to the library.
-/

/-- Exact rational value of the IEEE-754 double constant M_PI
(3.14159265358979311599...), the value both .ino files use for pi. -/
def M_PI : ℚ := 884279719003555 / 281474976710656

/-- The C++ cast (long)q: truncation toward zero (floor for nonnegative
values, ceiling for negative values). -/
def toLong (q : ℚ) : ℤ := if q < 0 then ⌈q⌉ else ⌊q⌋

namespace Esp32

/-- Source: #define rot_total_steps 13730 (esp32.ino line 19). -/
def rot_total_steps : ℚ := 13730

/-- Source: #define inOut_total_steps 4642 (esp32.ino line 20). -/
def inOut_total_steps : ℚ := 4642

/-- Source: const float gearRatio = 100.0f / 15.0f (esp32.ino line 22). -/
def gearRatio : ℚ := 100 / 15

/-- Source: #define BUFFER_SIZE 10 (esp32.ino line 24). -/
def BUFFER_SIZE : ℕ := 10

/-- Source: float interpolationResolution = 0.0004 (esp32.ino line 45). -/
def interpolationResolution : ℚ := 4 / 10000

/-- The mutable firmware globals of esp32.ino (lines 39-44) together with the
position references of the two AccelStepper objects.  rotPosition and
inOutPosition are the step positions the stepper library reports / is seated
to; rotMaxSpeed and inOutMaxSpeed are the per-axis maximum speeds. -/
structure FirmwareState where
  currentTheta : ℚ
  currentRho : ℚ
  totalRevolutions : ℚ
  isFirstCoordinates : Bool
  rotPosition : ℤ
  inOutPosition : ℤ
  rotMaxSpeed : ℚ
  inOutMaxSpeed : ℚ
deriving DecidableEq

/-- Rho clamp at the top of movePolar (esp32.ino lines 245-248). -/
def clampRho (rho : ℚ) : ℚ :=
  if rho < 0 then 0 else if rho > 1 then 1 else rho

/-- long rotSteps = (long)(theta * (rot_total_steps / (2.0f * M_PI)))
(esp32.ino line 250). -/
def rotStepsOf (theta : ℚ) : ℤ :=
  toLong (theta * (rot_total_steps / (2 * M_PI)))

/-- float revolutions = theta / (2.0 * M_PI) (esp32.ino line 251). -/
def revolutionsOf (theta : ℚ) : ℚ := theta / (2 * M_PI)

/-- long offsetSteps = (long)(revolutions * (rot_total_steps / gearRatio))
(esp32.ino line 252). -/
def offsetStepsOf (theta : ℚ) : ℤ :=
  toLong (revolutionsOf theta * (rot_total_steps / gearRatio))

/-- long inOutSteps = (long)(rho * inOut_total_steps); inOutSteps -= offsetSteps
(esp32.ino lines 255-257).  rho is the already-clamped value. -/
def inOutStepsOf (theta rho : ℚ) : ℤ :=
  toLong (rho * inOut_total_steps) - offsetStepsOf theta

/-- movePolar (esp32.ino lines 243-266): clamp rho, compute the two absolute
step targets, hand them to the stepper library (modelled by seating the two
position references at the targets of the blocking coordinated move), then
update currentTheta/currentRho. -/
def movePolar (theta rho : ℚ) (s : FirmwareState) : FirmwareState :=
  let rho2 := clampRho rho
  { s with
      rotPosition := rotStepsOf theta
      inOutPosition := inOutStepsOf theta rho2
      currentTheta := theta
      currentRho := rho2 }

/-- One pass of the first while loop of interpolatePath (esp32.ino line 275):
while (angleDiff > M_PI) angleDiff -= 2.0f * M_PI.  The fuel argument is an
upper bound on the number of iterations; the loop exits by its own condition,
so any sufficient fuel yields the value the while loop computes. -/
def normDownFuel : ℕ → ℚ → ℚ
  | 0, d => d
  | n + 1, d => if M_PI < d then normDownFuel n (d - 2 * M_PI) else d

/-- Upper bound on the iteration count of the loop at esp32.ino line 275:
the loop subtracts 2*M_PI until the value is at most M_PI. -/
def downFuel (d : ℚ) : ℕ := (⌊(d - M_PI) / (2 * M_PI)⌋ + 1).toNat

/-- The first while loop of interpolatePath (esp32.ino line 275). -/
def normDown (d : ℚ) : ℚ := normDownFuel (downFuel d) d

/-- One pass of the second while loop of interpolatePath (esp32.ino line 276):
while (angleDiff < -M_PI) angleDiff += 2.0f * M_PI. -/
def normUpFuel : ℕ → ℚ → ℚ
  | 0, d => d
  | n + 1, d => if d < -M_PI then normUpFuel n (d + 2 * M_PI) else d

/-- Upper bound on the iteration count of the loop at esp32.ino line 276. -/
def upFuel (d : ℚ) : ℕ := (⌊(-M_PI - d) / (2 * M_PI)⌋ + 1).toNat

/-- The shortest-angle normalization of interpolatePath (esp32.ino lines
273-276): both while loops in sequence, applied to endTheta - startTheta. -/
def normalizeAngle (d : ℚ) : ℚ := normUpFuel (upFuel (normDown d)) (normDown d)

/-- Squared Euclidean distance in (theta, rho) space: the argument of sqrt at
esp32.ino line 270, pow(endTheta - startTheta, 2) + pow(endRho - startRho, 2). -/
def distSq (startTheta startRho endTheta endRho : ℚ) : ℚ :=
  (endTheta - startTheta) ^ 2 + (endRho - startRho) ^ 2

/-- int numSteps = max(1, (int)(distance / stepSize)) (esp32.ino lines
270-271), with distance = sqrt(distSq).  For stepSize > 0 the truncation of
sqrt(s)/r equals the integer square root of the floor of s/r^2 (for q >= 0,
floor of sqrt q has square at most q and its successor square exceeds q, which
is exactly the characterization of Nat.sqrt applied to the floor of q), so the
cast is computed exactly without leaving the rationals. -/
def numSteps (startTheta startRho endTheta endRho stepSize : ℚ) : ℕ :=
  max 1 (Nat.sqrt (⌊distSq startTheta startRho endTheta endRho / stepSize ^ 2⌋).toNat)

/-- The sequence of waypoints interpolatePath realizes (esp32.ino lines
278-286): for step = 0..numSteps, t = step/numSteps, the waypoint
(startTheta + t * angleDiff, startRho + t * (endRho - startRho)). -/
def interpPoints (startTheta startRho endTheta endRho stepSize : ℚ) : List (ℚ × ℚ) :=
  let n := numSteps startTheta startRho endTheta endRho stepSize
  let angleDiff := normalizeAngle (endTheta - startTheta)
  (List.range (n + 1)).map fun (k : ℕ) =>
    (startTheta + ((k : ℚ) / (n : ℚ)) * angleDiff,
     startRho + ((k : ℚ) / (n : ℚ)) * (endRho - startRho))

/-- interpolatePath (esp32.ino lines 268-287): realize every interpolated
waypoint by one blocking movePolar call, in order. -/
def interpolatePath (startTheta startRho endTheta endRho stepSize : ℚ)
    (s : FirmwareState) : FirmwareState :=
  (interpPoints startTheta startRho endTheta endRho stepSize).foldl
    (fun st p => movePolar p.1 p.2 st) s

/-- resetTheta (esp32.ino lines 71-90): zero currentTheta and
totalRevolutions, seat the rotation axis reference at 0, seat the radial axis
reference at (long)(currentRho * inOut_total_steps), and mark the next
coordinate as the first one. -/
def resetTheta (s : FirmwareState) : FirmwareState :=
  { s with
      currentTheta := 0
      totalRevolutions := 0
      rotPosition := 0
      inOutPosition := toLong (s.currentRho * inOut_total_steps)
      isFirstCoordinates := true }

/-- The homing jog (esp32.ino lines 226-233): run the radial axis inward one
step at a time until its reported position is at most
-inOut_total_steps * 1.1.  The fuel argument is an upper bound on the number
of steps; the loop exits by its own condition. -/
def homingJogFuel : ℕ → ℤ → ℤ
  | 0, p => p
  | n + 1, p =>
      if (p : ℚ) ≤ -inOut_total_steps * (11 / 10) then p else homingJogFuel n (p - 1)

/-- Upper bound on the number of jog steps from start position p. -/
def jogFuel (p : ℤ) : ℕ := (p + ⌊inOut_total_steps * (11 / 10)⌋ + 1).toNat

/-- The homing jog loop run to completion from start position p. -/
def homingJog (p : ℤ) : ℤ := homingJogFuel (jogFuel p) p

/-- homing (esp32.ino lines 220-240): jog the radial axis inward past 110%
of its full travel, then zero both position references and reset
currentTheta and currentRho.  totalRevolutions is not touched. -/
def homing (s : FirmwareState) : FirmwareState :=
  let jogged := { s with inOutPosition := homingJog s.inOutPosition }
  { jogged with
      inOutPosition := 0
      rotPosition := 0
      currentTheta := 0
      currentRho := 0 }

/-- The batch-fill loop (esp32.ino lines 153-176): starting at pairIndex = 0,
store successive parsed theta-rho pairs while pairIndex < BUFFER_SIZE; pairs
beyond the capacity are dropped without any report.  The input is the list of
pairs the semicolon-terminated line contains, in order. -/
def fillLoop : ℕ → List (ℚ × ℚ) → List (ℚ × ℚ)
  | _, [] => []
  | pairIndex, p :: rest =>
      if pairIndex < BUFFER_SIZE then p :: fillLoop (pairIndex + 1) rest else []

/-- Buffer contents after parsing one batch line (esp32.ino lines 150-178). -/
def fillBuffer (pairs : List (ℚ × ℚ)) : List (ℚ × ℚ) := fillLoop 0 pairs

/-- The batch-processing for loop (esp32.ino lines 190-210), acting on the
firmware state.  startTheta/startRho track the previous waypoint (initialized
from currentTheta/currentRho at lines 187-188).  When isFirstCoordinates is
set the loop does a single direct movePolar and clears the flag; this happens
only at i = 0 (the flag is cleared immediately), so the buffer[0] the source
reads there is the current element. -/
def buffLoop (startTheta startRho : ℚ) (s : FirmwareState) :
    List (ℚ × ℚ) → FirmwareState
  | [] => s
  | (theta, rho) :: rest =>
      if s.isFirstCoordinates then
        buffLoop theta rho
          { movePolar theta rho s with isFirstCoordinates := false } rest
      else
        buffLoop theta rho
          (interpolatePath startTheta startRho theta rho interpolationResolution s)
          rest

/-- One motion request the batch loop issues: either a single direct
movePolar, or an interpolatePath from a recorded start waypoint. -/
inductive Move
  | direct (theta rho : ℚ)
  | interp (startTheta startRho endTheta endRho : ℚ)
deriving DecidableEq

/-- The destination waypoint of a batch-loop motion request. -/
def Move.target : Move → ℚ × ℚ
  | .direct theta rho => (theta, rho)
  | .interp _ _ endTheta endRho => (endTheta, endRho)

/-- The trace of motion requests the batch loop (esp32.ino lines 190-210)
issues: same control flow as buffLoop, recording each request. -/
def buffMoves (first : Bool) (startTheta startRho : ℚ) :
    List (ℚ × ℚ) → List Move
  | [] => []
  | (theta, rho) :: rest =>
      if first then Move.direct theta rho :: buffMoves false theta rho rest
      else Move.interp startTheta startRho theta rho :: buffMoves false theta rho rest

/-- Processing of a ready batch (esp32.ino lines 182-217): if the buffer is
nonempty, run the batch loop from the current position and acknowledge with
the ready marker R; an empty buffer leaves the state alone. -/
def processBatch (s : FirmwareState) (buf : List (ℚ × ℚ)) :
    FirmwareState × List String :=
  if 0 < buf.length then
    (buffLoop s.currentTheta s.currentRho s buf, ["R"])
  else (s, [])

/-- A classified input line (esp32.ino lines 95-150).  The raw string layer
is abstracted: speed carries the parsed float after the first space (none
when the line has no space, in which case the source prints INVALID_COMMAND),
and batch carries the theta-rho pairs of a semicolon-terminated line. -/
inductive ParsedLine
  | home
  | reset
  | speed (arg : Option ℚ)
  | batch (pairs : List (ℚ × ℚ))

/-- The command dispatcher (esp32.ino loop, lines 92-218): route a classified
line to its handler and collect the emitted tokens.  RESET_THETA prints
THETA_RESET inside resetTheta and again in the dispatcher, then the ready
marker (lines 141-147). -/
def dispatch (s : FirmwareState) : ParsedLine → FirmwareState × List String
  | .home => (homing s, ["HOMING", "HOMED"])
  | .reset => (resetTheta s, ["THETA_RESET", "THETA_RESET", "R"])
  | .speed none => (s, ["INVALID_COMMAND"])
  | .speed (some v) =>
      if v > 0 then
        ({ s with rotMaxSpeed := v, inOutMaxSpeed := v }, ["SPEED_SET", "R"])
      else (s, ["INVALID_SPEED"])
  | .batch pairs => processBatch s (fillBuffer pairs)

/-- Global variable initial values (esp32.ino lines 39-44) with both stepper
references at 0, before setup() runs. -/
def powerOnState : FirmwareState :=
  { currentTheta := 0
    currentRho := 0
    totalRevolutions := 0
    isFirstCoordinates := true
    rotPosition := 0
    inOutPosition := 0
    rotMaxSpeed := 550
    inOutMaxSpeed := 550 }

/-- State after setup() (esp32.ino lines 51-68): speeds configured, ready
marker printed, then homing runs. -/
def initialState : FirmwareState := homing powerOnState

end Esp32

namespace Arduino

/-- Source: #define rot_total_steps 16000.0 (arduino_code.ino line 13). -/
def rot_total_steps : ℚ := 16000

/-- Source: #define inOut_total_steps 5760.0 (arduino_code.ino line 14). -/
def inOut_total_steps : ℚ := 5760

/-- long rotSteps = theta * (rot_total_steps / (2.0 * M_PI))
(arduino_code.ino line 121). -/
def rotStepsOf (theta : ℚ) : ℤ :=
  toLong (theta * (rot_total_steps / (2 * M_PI)))

/-- long offsetSteps = revolutions * 1600, with
revolutions = theta / (2.0 * M_PI) (arduino_code.ino lines 125-126). -/
def offsetStepsOf (theta : ℚ) : ℤ :=
  toLong ((theta / (2 * M_PI)) * 1600)

/-- long inOutSteps = rho * inOut_total_steps; inOutSteps += offsetSteps
(arduino_code.ino lines 122-129).  No rho clamp exists in this variant. -/
def inOutStepsOf (theta rho : ℚ) : ℤ :=
  toLong (rho * inOut_total_steps) + offsetStepsOf theta

end Arduino

/-! ## Supporting lemmas -/

theorem M_PI_pos : (0 : ℚ) < M_PI := by norm_num [M_PI]

theorem two_M_PI_pos : (0 : ℚ) < 2 * M_PI := by linarith [M_PI_pos]

theorem two_M_PI_ne : (2 * M_PI : ℚ) ≠ 0 := ne_of_gt two_M_PI_pos

theorem toLong_of_nonneg (q : ℚ) (h : 0 ≤ q) : toLong q = ⌊q⌋ := by
  rw [toLong, if_neg (not_lt.mpr h)]

theorem toLong_of_neg (q : ℚ) (h : q < 0) : toLong q = ⌈q⌉ := by
  rw [toLong, if_pos h]

theorem toLong_le (q : ℚ) (h : 0 ≤ q) : (toLong q : ℚ) ≤ q := by
  rw [toLong_of_nonneg q h]; exact Int.floor_le q

theorem lt_toLong_add_one (q : ℚ) (h : 0 ≤ q) : q < toLong q + 1 := by
  rw [toLong_of_nonneg q h]; exact_mod_cast Int.lt_floor_add_one q

theorem le_toLong (q : ℚ) (h : q < 0) : q ≤ (toLong q : ℚ) := by
  rw [toLong_of_neg q h]; exact Int.le_ceil q

theorem toLong_lt (q : ℚ) (h : q < 0) : (toLong q : ℚ) < q + 1 := by
  rw [toLong_of_neg q h]; exact_mod_cast Int.ceil_lt_add_one q

theorem toLong_nonneg (q : ℚ) (h : 0 ≤ q) : 0 ≤ toLong q := by
  rw [toLong_of_nonneg q h]
  exact Int.floor_nonneg.mpr h

theorem toLong_nonpos (q : ℚ) (h : q ≤ 0) : toLong q ≤ 0 := by
  rcases lt_or_eq_of_le h with h2 | h2
  · rw [toLong_of_neg q h2]
    exact Int.ceil_le.mpr (by exact_mod_cast h)
  · rw [h2]
    norm_num [toLong]

/-- The magnitude of the C long cast never exceeds the magnitude of its
argument: truncation points toward zero on both sides. -/
theorem abs_toLong_le (q : ℚ) : |(toLong q : ℚ)| ≤ |q| := by
  rcases lt_or_le q 0 with h | h
  · have h1 := le_toLong q h
    have h2 : (toLong q : ℚ) ≤ 0 := by exact_mod_cast toLong_nonpos q (le_of_lt h)
    rw [abs_of_nonpos h2, abs_of_nonpos (le_of_lt h)]
    linarith
  · have h1 := toLong_le q h
    have h2 : (0 : ℚ) ≤ (toLong q : ℚ) := by exact_mod_cast toLong_nonneg q h
    rw [abs_of_nonneg h2, abs_of_nonneg h]
    exact h1

/-- The C long cast drops strictly less than one unit of magnitude. -/
theorem abs_lt_abs_toLong_add_one (q : ℚ) : |q| < |(toLong q : ℚ)| + 1 := by
  rcases lt_or_le q 0 with h | h
  · have h1 := toLong_lt q h
    have h2 : (toLong q : ℚ) ≤ 0 := by exact_mod_cast toLong_nonpos q (le_of_lt h)
    rw [abs_of_nonpos h2, abs_of_nonpos (le_of_lt h)]
    linarith
  · have h1 := lt_toLong_add_one q h
    have h2 : (0 : ℚ) ≤ (toLong q : ℚ) := by exact_mod_cast toLong_nonneg q h
    rw [abs_of_nonneg h2, abs_of_nonneg h]
    exact h1

/-- Adding one coupling unit rot_total_steps / gearRatio = 4119/2 to the
argument of the C long cast moves the result up by 2059 or 2060 when the
argument stays on one side of zero, and possibly only 2058 when the two
arguments straddle zero (truncation toward zero points in opposite
directions there). -/
theorem toLong_shift_couple (x : ℚ) :
    2058 ≤ toLong (x + 4119 / 2) - toLong x ∧
    toLong (x + 4119 / 2) - toLong x ≤ 2060 ∧
    (0 ≤ x → 2059 ≤ toLong (x + 4119 / 2) - toLong x) := by
  rcases le_or_lt 0 x with hx | hx
  · have hx2 : (0 : ℚ) ≤ x + 4119 / 2 := by linarith
    have h1 := toLong_le x hx
    have h2 := lt_toLong_add_one x hx
    have h3 := toLong_le (x + 4119 / 2) hx2
    have h4 := lt_toLong_add_one (x + 4119 / 2) hx2
    have hlo : (2058 : ℚ) < (toLong (x + 4119 / 2) : ℚ) - toLong x := by linarith
    have hhi : ((toLong (x + 4119 / 2) : ℚ)) - toLong x < 2061 := by linarith
    have hlo2 : (2058 : ℤ) < toLong (x + 4119 / 2) - toLong x := by exact_mod_cast hlo
    have hhi2 : toLong (x + 4119 / 2) - toLong x < (2061 : ℤ) := by exact_mod_cast hhi
    exact ⟨by omega, by omega, fun _ => by omega⟩
  · rcases le_or_lt 0 (x + 4119 / 2) with hx2 | hx2
    · have h1 := le_toLong x hx
      have h2 := toLong_lt x hx
      have h3 := toLong_le (x + 4119 / 2) hx2
      have h4 := lt_toLong_add_one (x + 4119 / 2) hx2
      have hlo : (2057 : ℚ) < (toLong (x + 4119 / 2) : ℚ) - toLong x := by linarith
      have hhi : ((toLong (x + 4119 / 2) : ℚ)) - toLong x < 2060 := by linarith
      have hlo2 : (2057 : ℤ) < toLong (x + 4119 / 2) - toLong x := by exact_mod_cast hlo
      have hhi2 : toLong (x + 4119 / 2) - toLong x < (2060 : ℤ) := by exact_mod_cast hhi
      exact ⟨by omega, by omega, fun h0 => absurd h0 (not_le.mpr hx)⟩
    · have h1 := le_toLong x hx
      have h2 := toLong_lt x hx
      have h3 := le_toLong (x + 4119 / 2) hx2
      have h4 := toLong_lt (x + 4119 / 2) hx2
      have hlo : (2058 : ℚ) < (toLong (x + 4119 / 2) : ℚ) - toLong x := by linarith
      have hhi : ((toLong (x + 4119 / 2) : ℚ)) - toLong x < 2061 := by linarith
      have hlo2 : (2058 : ℤ) < toLong (x + 4119 / 2) - toLong x := by exact_mod_cast hlo
      have hhi2 : toLong (x + 4119 / 2) - toLong x < (2061 : ℤ) := by exact_mod_cast hhi
      exact ⟨by omega, by omega, fun h0 => absurd h0 (not_le.mpr hx)⟩

/-- Adding an integer revolution worth of arduino coupling (1600 steps) to a
nonnegative cast argument shifts the cast result by exactly 1600. -/
theorem toLong_shift_1600 (x : ℚ) (hx : 0 ≤ x) :
    toLong (x + 1600) = toLong x + 1600 := by
  rw [toLong_of_nonneg x hx, toLong_of_nonneg (x + 1600) (by linarith)]
  have h : (x + 1600 : ℚ) = x + ((1600 : ℤ) : ℚ) := by push_cast; ring
  rw [h, Int.floor_add_int]

namespace Esp32

theorem normDownFuel_le :
    ∀ (n : ℕ) (d : ℚ), (⌈(d - M_PI) / (2 * M_PI)⌉).toNat ≤ n →
      normDownFuel n d ≤ M_PI := by
  intro n
  induction n with
  | zero =>
    intro d h
    have h0 : ⌈(d - M_PI) / (2 * M_PI)⌉ ≤ 0 := by omega
    have h1 : (d - M_PI) / (2 * M_PI) ≤ ((0 : ℤ) : ℚ) := Int.ceil_le.mp h0
    have h2 : (d - M_PI) / (2 * M_PI) ≤ 0 := by exact_mod_cast h1
    have h3 : ¬ (0 : ℚ) < (d - M_PI) / (2 * M_PI) := not_lt.mpr h2
    have h4 : ¬ M_PI < d := by
      intro hd
      exact h3 (div_pos (by linarith) two_M_PI_pos)
    exact not_lt.mp h4
  | succ n ih =>
    intro d h
    rw [normDownFuel]
    split
    · rename_i hd
      apply ih
      have key : ((d - 2 * M_PI) - M_PI) / (2 * M_PI) = (d - M_PI) / (2 * M_PI) - 1 := by
        rw [show ((d - 2 * M_PI) - M_PI) = (d - M_PI) - 2 * M_PI by ring, sub_div,
          div_self two_M_PI_ne]
      rw [key, Int.ceil_sub_one]
      have hc : 0 < ⌈(d - M_PI) / (2 * M_PI)⌉ :=
        Int.ceil_pos.mpr (div_pos (by linarith) two_M_PI_pos)
      omega
    · rename_i hd
      exact not_lt.mp hd

theorem normDownFuel_ge :
    ∀ (n : ℕ) (d : ℚ), -M_PI ≤ d → -M_PI ≤ normDownFuel n d := by
  intro n
  induction n with
  | zero => intro d h; simpa [normDownFuel] using h
  | succ n ih =>
    intro d h
    rw [normDownFuel]
    split
    · rename_i hd; exact ih _ (by linarith)
    · exact h

theorem normDownFuel_congr :
    ∀ (n : ℕ) (d : ℚ), ∃ k : ℤ, normDownFuel n d = d - 2 * M_PI * k := by
  intro n
  induction n with
  | zero => intro d; exact ⟨0, by simp [normDownFuel]⟩
  | succ n ih =>
    intro d
    rw [normDownFuel]
    split
    · obtain ⟨k, hk⟩ := ih (d - 2 * M_PI)
      exact ⟨k + 1, by rw [hk]; push_cast; ring⟩
    · exact ⟨0, by ring⟩

theorem normDown_le (d : ℚ) : normDown d ≤ M_PI := by
  apply normDownFuel_le
  have h := Int.ceil_le_floor_add_one ((d - M_PI) / (2 * M_PI))
  unfold downFuel
  omega

theorem normUpFuel_ge :
    ∀ (n : ℕ) (d : ℚ), (⌈(-M_PI - d) / (2 * M_PI)⌉).toNat ≤ n →
      -M_PI ≤ normUpFuel n d := by
  intro n
  induction n with
  | zero =>
    intro d h
    have h0 : ⌈(-M_PI - d) / (2 * M_PI)⌉ ≤ 0 := by omega
    have h1 : (-M_PI - d) / (2 * M_PI) ≤ ((0 : ℤ) : ℚ) := Int.ceil_le.mp h0
    have h2 : (-M_PI - d) / (2 * M_PI) ≤ 0 := by exact_mod_cast h1
    have h4 : ¬ d < -M_PI := by
      intro hd
      exact (not_lt.mpr h2) (div_pos (by linarith) two_M_PI_pos)
    exact not_lt.mp h4
  | succ n ih =>
    intro d h
    rw [normUpFuel]
    split
    · rename_i hd
      apply ih
      have key : (-M_PI - (d + 2 * M_PI)) / (2 * M_PI) = (-M_PI - d) / (2 * M_PI) - 1 := by
        rw [show (-M_PI - (d + 2 * M_PI)) = (-M_PI - d) - 2 * M_PI by ring, sub_div,
          div_self two_M_PI_ne]
      rw [key, Int.ceil_sub_one]
      have hc : 0 < ⌈(-M_PI - d) / (2 * M_PI)⌉ :=
        Int.ceil_pos.mpr (div_pos (by linarith) two_M_PI_pos)
      omega
    · rename_i hd
      exact not_lt.mp hd

theorem normUpFuel_le :
    ∀ (n : ℕ) (d : ℚ), d ≤ M_PI → normUpFuel n d ≤ M_PI := by
  intro n
  induction n with
  | zero => intro d h; simpa [normUpFuel] using h
  | succ n ih =>
    intro d h
    rw [normUpFuel]
    split
    · rename_i hd; exact ih _ (by linarith [M_PI_pos])
    · exact h

theorem normUpFuel_congr :
    ∀ (n : ℕ) (d : ℚ), ∃ k : ℤ, normUpFuel n d = d + 2 * M_PI * k := by
  intro n
  induction n with
  | zero => intro d; exact ⟨0, by simp [normUpFuel]⟩
  | succ n ih =>
    intro d
    rw [normUpFuel]
    split
    · obtain ⟨k, hk⟩ := ih (d + 2 * M_PI)
      exact ⟨k + 1, by rw [hk]; push_cast; ring⟩
    · exact ⟨0, by ring⟩

theorem normalizeAngle_le (d : ℚ) : normalizeAngle d ≤ M_PI :=
  normUpFuel_le _ _ (normDown_le d)

theorem normalizeAngle_ge (d : ℚ) : -M_PI ≤ normalizeAngle d := by
  apply normUpFuel_ge
  have h := Int.ceil_le_floor_add_one ((-M_PI - normDown d) / (2 * M_PI))
  unfold upFuel
  omega

theorem normalizeAngle_congr (d : ℚ) :
    ∃ k : ℤ, normalizeAngle d = d + 2 * M_PI * k := by
  obtain ⟨k1, hk1⟩ := normDownFuel_congr (downFuel d) d
  obtain ⟨k2, hk2⟩ := normUpFuel_congr (upFuel (normDown d)) (normDown d)
  refine ⟨k2 - k1, ?_⟩
  rw [normalizeAngle, hk2]
  rw [normDown] at *
  rw [hk1]
  push_cast
  ring

/-- Normalization of a difference slightly below a full positive revolution:
for 0 < e < M_PI the loops turn 2*M_PI - e into -e. -/
theorem normalizeAngle_back (e : ℚ) (h0 : 0 < e) (h1 : e < M_PI) :
    normalizeAngle (2 * M_PI - e) = -e := by
  have hfl : ⌊(2 * M_PI - e - M_PI) / (2 * M_PI)⌋ = 0 := by
    rw [Int.floor_eq_zero_iff]
    constructor
    · exact div_nonneg (by linarith) (le_of_lt two_M_PI_pos)
    · rw [div_lt_one two_M_PI_pos]
      linarith [M_PI_pos]
  have hdf : downFuel (2 * M_PI - e) = 1 := by
    unfold downFuel
    rw [hfl]
    rfl
  have hnd : normDown (2 * M_PI - e) = -e := by
    rw [normDown, hdf, normDownFuel, if_pos (by linarith [M_PI_pos] : M_PI < 2 * M_PI - e)]
    rw [normDownFuel]
    ring
  have hfl2 : ⌊(-M_PI - -e) / (2 * M_PI)⌋ = -1 := by
    rw [Int.floor_eq_iff]
    constructor
    · push_cast
      rw [le_div_iff₀ two_M_PI_pos]
      linarith
    · push_cast
      rw [div_lt_iff₀ two_M_PI_pos]
      linarith [M_PI_pos]
  have huf : upFuel (-e) = 0 := by
    unfold upFuel
    rw [hfl2]
    rfl
  rw [normalizeAngle, hnd, huf, normUpFuel]

end Esp32

namespace Esp32

theorem distSq_nonneg (a b c d : ℚ) : 0 ≤ distSq a b c d := by
  unfold distSq
  positivity

/-- The segment count the code computes is max(1, m) where m is the exact
truncation of distance/stepSize: m * stepSize lies within one stepSize below
the distance.  Stated on squares to stay inside the rationals. -/
theorem numSteps_char (a b c d r : ℚ) (hr : 0 < r) :
    ∃ m : ℕ, numSteps a b c d r = max 1 m ∧
      ((m : ℚ) * r) ^ 2 ≤ distSq a b c d ∧
      distSq a b c d < (((m : ℚ) + 1) * r) ^ 2 := by
  set q : ℚ := distSq a b c d / r ^ 2 with hq
  have hr2 : (0 : ℚ) < r ^ 2 := by positivity
  have hq0 : 0 ≤ q := div_nonneg (distSq_nonneg a b c d) (le_of_lt hr2)
  set m : ℕ := Nat.sqrt (⌊q⌋).toNat with hm
  have htn : ((⌊q⌋).toNat : ℤ) = ⌊q⌋ := Int.toNat_of_nonneg (Int.floor_nonneg.mpr hq0)
  refine ⟨m, rfl, ?_, ?_⟩
  · have h1 : (m : ℕ) ^ 2 ≤ (⌊q⌋).toNat := Nat.sqrt_le' _
    have h2 : ((m : ℚ)) ^ 2 ≤ ((⌊q⌋).toNat : ℚ) := by exact_mod_cast h1
    have h3 : ((⌊q⌋).toNat : ℚ) ≤ q := by
      have : ((⌊q⌋).toNat : ℚ) = ((⌊q⌋ : ℤ) : ℚ) := by exact_mod_cast htn
      rw [this]
      exact Int.floor_le q
    have h4 : ((m : ℚ)) ^ 2 ≤ q := le_trans h2 h3
    have h5 : ((m : ℚ)) ^ 2 * r ^ 2 ≤ q * r ^ 2 := by
      exact mul_le_mul_of_nonneg_right h4 (le_of_lt hr2)
    have h6 : q * r ^ 2 = distSq a b c d := by
      rw [hq]
      field_simp
    calc ((m : ℚ) * r) ^ 2 = (m : ℚ) ^ 2 * r ^ 2 := by ring
    _ ≤ q * r ^ 2 := h5
    _ = distSq a b c d := h6
  · have h1 : (⌊q⌋).toNat < (m + 1) ^ 2 := by
      have := Nat.lt_succ_sqrt' (⌊q⌋).toNat
      simpa [hm, Nat.succ_eq_add_one] using this
    have h2 : q < ((⌊q⌋).toNat : ℚ) + 1 := by
      have hcast : ((⌊q⌋).toNat : ℚ) = ((⌊q⌋ : ℤ) : ℚ) := by exact_mod_cast htn
      rw [hcast]
      exact Int.lt_floor_add_one q
    have h3 : ((⌊q⌋).toNat : ℚ) + 1 ≤ ((m : ℚ) + 1) ^ 2 := by
      have : (⌊q⌋).toNat + 1 ≤ (m + 1) ^ 2 := h1
      exact_mod_cast this
    have h4 : q < ((m : ℚ) + 1) ^ 2 := lt_of_lt_of_le h2 h3
    have h5 : q * r ^ 2 < ((m : ℚ) + 1) ^ 2 * r ^ 2 :=
      mul_lt_mul_of_pos_right h4 hr2
    have h6 : q * r ^ 2 = distSq a b c d := by
      rw [hq]
      field_simp
    calc distSq a b c d = q * r ^ 2 := h6.symm
    _ < ((m : ℚ) + 1) ^ 2 * r ^ 2 := h5
    _ = (((m : ℚ) + 1) * r) ^ 2 := by ring

theorem numSteps_pos (a b c d r : ℚ) : 1 ≤ numSteps a b c d r :=
  le_max_left 1 _

theorem interpPoints_length (a b c d r : ℚ) :
    (interpPoints a b c d r).length = numSteps a b c d r + 1 := by
  rw [interpPoints]
  simp only [List.length_map, List.length_range]

/-- Membership characterization of the interpolated waypoint sequence: the
points are exactly those at t = k / numSteps for k = 0..numSteps. -/
theorem interpPoints_mem (a b c d r : ℚ) (p : ℚ × ℚ) :
    p ∈ interpPoints a b c d r ↔
      ∃ k : ℕ, k ≤ numSteps a b c d r ∧
        p = (a + ((k : ℚ) / (numSteps a b c d r : ℚ)) * normalizeAngle (c - a),
             b + ((k : ℚ) / (numSteps a b c d r : ℚ)) * (d - b)) := by
  rw [interpPoints]
  simp only [List.mem_map, List.mem_range, Nat.lt_succ_iff]
  constructor
  · rintro ⟨k, hk, hEq⟩
    exact ⟨k, hk, hEq.symm⟩
  · rintro ⟨k, hk, hEq⟩
    exact ⟨k, hk, hEq.symm⟩

theorem fillLoop_eq_take :
    ∀ (ps : List (ℚ × ℚ)) (i : ℕ), fillLoop i ps = ps.take (BUFFER_SIZE - i) := by
  intro ps
  induction ps with
  | nil => intro i; simp [fillLoop]
  | cons p rest ih =>
    intro i
    rw [fillLoop]
    by_cases hi : i < BUFFER_SIZE
    · rw [if_pos hi, ih (i + 1)]
      have : BUFFER_SIZE - i = (BUFFER_SIZE - (i + 1)) + 1 := by omega
      rw [this, List.take_succ_cons]
    · rw [if_neg hi]
      have : BUFFER_SIZE - i = 0 := by omega
      rw [this, List.take_zero]

theorem fillBuffer_eq_take (ps : List (ℚ × ℚ)) :
    fillBuffer ps = ps.take BUFFER_SIZE := by
  rw [fillBuffer, fillLoop_eq_take]
  rfl

theorem buffMoves_targets :
    ∀ (l : List (ℚ × ℚ)) (first : Bool) (a b : ℚ),
      (buffMoves first a b l).map Move.target = l := by
  intro l
  induction l with
  | nil => intro first a b; simp [buffMoves]
  | cons p rest ih =>
    intro first a b
    obtain ⟨theta, rho⟩ := p
    rw [buffMoves]
    by_cases hf : first = true
    · subst hf
      simp [Move.target, ih]
    · have : first = false := by
        cases first
        · rfl
        · exact absurd rfl hf
      subst this
      simp [Move.target, ih]

theorem buffMoves_false_zip :
    ∀ (l : List (ℚ × ℚ)) (a b : ℚ),
      buffMoves false a b l =
        (((a, b) :: l).zip l).map
          (fun q => Move.interp q.1.1 q.1.2 q.2.1 q.2.2) := by
  intro l
  induction l with
  | nil => intro a b; simp [buffMoves]
  | cons p rest ih =>
    intro a b
    obtain ⟨theta, rho⟩ := p
    rw [buffMoves]
    simp only [Bool.false_eq_true, if_false, List.zip_cons_cons, List.map_cons]
    rw [ih theta rho]

theorem buffMoves_true_shape (w : ℚ × ℚ) (l : List (ℚ × ℚ)) (a b : ℚ) :
    buffMoves true a b (w :: l) =
      Move.direct w.1 w.2 ::
        ((w :: l).zip l).map (fun q => Move.interp q.1.1 q.1.2 q.2.1 q.2.2) := by
  obtain ⟨theta, rho⟩ := w
  rw [buffMoves]
  simp only [if_true]
  rw [buffMoves_false_zip]

theorem movePolar_flag (theta rho : ℚ) (s : FirmwareState) :
    (movePolar theta rho s).isFirstCoordinates = s.isFirstCoordinates := rfl

theorem foldl_movePolar_flag :
    ∀ (l : List (ℚ × ℚ)) (s : FirmwareState),
      (l.foldl (fun st p => movePolar p.1 p.2 st) s).isFirstCoordinates =
        s.isFirstCoordinates := by
  intro l
  induction l with
  | nil => intro s; rfl
  | cons p rest ih => intro s; rw [List.foldl_cons, ih]; rfl

theorem interpolatePath_flag (a b c d r : ℚ) (s : FirmwareState) :
    (interpolatePath a b c d r s).isFirstCoordinates = s.isFirstCoordinates :=
  foldl_movePolar_flag _ s

/-- After the batch loop runs, the first-coordinates flag is set only when it
was set before and the buffer was empty. -/
theorem buffLoop_flag :
    ∀ (l : List (ℚ × ℚ)) (a b : ℚ) (s : FirmwareState),
      (buffLoop a b s l).isFirstCoordinates =
        (s.isFirstCoordinates && l.isEmpty) := by
  intro l
  induction l with
  | nil => intro a b s; simp [buffLoop]
  | cons p rest ih =>
    intro a b s
    obtain ⟨theta, rho⟩ := p
    rw [buffLoop]
    by_cases hf : s.isFirstCoordinates = true
    · rw [if_pos hf, ih]
      simp [hf]
    · have hf2 : s.isFirstCoordinates = false := by
        cases h : s.isFirstCoordinates
        · rfl
        · exact absurd h hf
      rw [if_neg hf, ih]
      simp [interpolatePath_flag, hf2]

theorem homingJogFuel_le :
    ∀ (n : ℕ) (p : ℤ), (p + 5107).toNat ≤ n → homingJogFuel n p ≤ -5107 := by
  intro n
  induction n with
  | zero => intro p h; rw [homingJogFuel]; omega
  | succ n ih =>
    intro p h
    rw [homingJogFuel]
    split
    · rename_i hp
      have h1 : (p : ℚ) ≤ -25531 / 5 := by
        rw [show -inOut_total_steps * (11 / 10) = (-25531 / 5 : ℚ) by
          norm_num [inOut_total_steps]] at hp
        exact hp
      have h2 : p ≤ ⌊(-25531 / 5 : ℚ)⌋ := Int.le_floor.mpr h1
      have h3 : ⌊(-25531 / 5 : ℚ)⌋ = -5107 := by norm_num
      omega
    · rename_i hp
      apply ih
      have h1 : (-25531 / 5 : ℚ) < (p : ℚ) := by
        rw [show -inOut_total_steps * (11 / 10) = (-25531 / 5 : ℚ) by
          norm_num [inOut_total_steps]] at hp
        exact not_le.mp hp
      have h2 : ⌊(-25531 / 5 : ℚ)⌋ < p := Int.floor_lt.mpr h1
      have h3 : ⌊(-25531 / 5 : ℚ)⌋ = -5107 := by norm_num
      omega

/-- The homing jog always reaches at least 110 percent of the radial travel
inward (position at most -5107 steps) before stopping. -/
theorem homingJog_le (p : ℤ) : homingJog p ≤ -5107 := by
  have h : ⌊inOut_total_steps * (11 / 10)⌋ = 5106 := by
    norm_num [inOut_total_steps]
  apply homingJogFuel_le
  unfold jogFuel
  rw [h]
  omega

end Esp32

/-! ## Claims -/

/-- C1 counterexample: at the spec scenario waypoint (1.5708, 0.5) the code
truncates, giving rotation steps 3432 where the claimed round formula gives
3433, offset 514 where the claim gives 515, and radial target 1807 where the
claim gives 1806. -/
theorem C1_counterexample :
    Esp32.rotStepsOf (15708 / 10000) ≠
      round ((15708 / 10000 : ℚ) * (Esp32.rot_total_steps / (2 * M_PI))) ∧
    (Esp32.movePolar (15708 / 10000) (1 / 2) Esp32.initialState).rotPosition = 3432 ∧
    round ((15708 / 10000 : ℚ) * (Esp32.rot_total_steps / (2 * M_PI))) = 3433 ∧
    Esp32.offsetStepsOf (15708 / 10000) = 514 ∧
    round (Esp32.revolutionsOf (15708 / 10000) *
      (Esp32.rot_total_steps / Esp32.gearRatio)) = 515 ∧
    (Esp32.movePolar (15708 / 10000) (1 / 2) Esp32.initialState).inOutPosition = 1807 := by
  have h1 : Esp32.rotStepsOf (15708 / 10000) = 3432 := by
    norm_num [Esp32.rotStepsOf, toLong, Esp32.rot_total_steps, M_PI]
  have h2 : round ((15708 / 10000 : ℚ) * (Esp32.rot_total_steps / (2 * M_PI))) = 3433 := by
    norm_num [round_eq, Esp32.rot_total_steps, M_PI]
  have h3 : Esp32.offsetStepsOf (15708 / 10000) = 514 := by
    norm_num [Esp32.offsetStepsOf, Esp32.revolutionsOf, toLong, Esp32.rot_total_steps,
      Esp32.gearRatio, M_PI]
  have h4 : round (Esp32.revolutionsOf (15708 / 10000) *
      (Esp32.rot_total_steps / Esp32.gearRatio)) = 515 := by
    norm_num [round_eq, Esp32.revolutionsOf, Esp32.rot_total_steps, Esp32.gearRatio, M_PI]
  have h5 : Esp32.clampRho (1 / 2) = 1 / 2 := by
    norm_num [Esp32.clampRho]
  have h6 : (Esp32.movePolar (15708 / 10000) (1 / 2) Esp32.initialState).inOutPosition
      = 1807 := by
    show Esp32.inOutStepsOf (15708 / 10000) (Esp32.clampRho (1 / 2)) = 1807
    rw [h5, Esp32.inOutStepsOf, h3]
    norm_num [toLong, Esp32.inOut_total_steps]
  exact ⟨by rw [h1, h2]; norm_num, h1, h2, h3, h4, h6⟩

/-- C1 (amended): movePolar truncates toward zero rather than rounding to
nearest.  For every waypoint theta and in-range rho the rotation target is
the truncation toward zero of theta * rotationTotalSteps/(2 pi) — magnitude
within one unit below the real value, sign matching theta — and the radial
target is the floor of rho * radialTotalSteps minus the truncation toward
zero of (theta/(2 pi)) * rotationTotalSteps/gearRatio; the spec scenario
waypoint (1.5708, 0.5) from the homed state yields 3432, 514 and
1806+1 = 1807. -/
theorem C1_theorem :
    (∀ (theta rho : ℚ) (s : Esp32.FirmwareState), 0 ≤ rho → rho ≤ 1 →
      (|((Esp32.movePolar theta rho s).rotPosition : ℚ)| ≤
          |theta * (Esp32.rot_total_steps / (2 * M_PI))| ∧
        |theta * (Esp32.rot_total_steps / (2 * M_PI))| <
          |((Esp32.movePolar theta rho s).rotPosition : ℚ)| + 1 ∧
        (0 ≤ theta → 0 ≤ (Esp32.movePolar theta rho s).rotPosition) ∧
        (theta < 0 → (Esp32.movePolar theta rho s).rotPosition ≤ 0)) ∧
      ∃ radialBase offset : ℤ,
        (Esp32.movePolar theta rho s).inOutPosition = radialBase - offset ∧
        (radialBase : ℚ) ≤ rho * Esp32.inOut_total_steps ∧
        rho * Esp32.inOut_total_steps < (radialBase : ℚ) + 1 ∧
        |(offset : ℚ)| ≤
          |Esp32.revolutionsOf theta * (Esp32.rot_total_steps / Esp32.gearRatio)| ∧
        |Esp32.revolutionsOf theta * (Esp32.rot_total_steps / Esp32.gearRatio)| <
          |(offset : ℚ)| + 1 ∧
        (0 ≤ theta → 0 ≤ offset) ∧
        (theta < 0 → offset ≤ 0)) ∧
    (Esp32.movePolar (15708 / 10000) (1 / 2) Esp32.initialState).rotPosition = 3432 ∧
    Esp32.offsetStepsOf (15708 / 10000) = 514 ∧
    (Esp32.movePolar (15708 / 10000) (1 / 2) Esp32.initialState).inOutPosition = 1807 := by
  constructor
  · intro theta rho s h1 h2
    have hclamp : Esp32.clampRho rho = rho := by
      unfold Esp32.clampRho
      rw [if_neg (not_lt.mpr h1), if_neg (not_lt.mpr h2)]
    have hr : (Esp32.movePolar theta rho s).rotPosition =
        toLong (theta * (Esp32.rot_total_steps / (2 * M_PI))) := rfl
    have hfac : (0 : ℚ) < Esp32.rot_total_steps / (2 * M_PI) :=
      div_pos (by norm_num [Esp32.rot_total_steps]) two_M_PI_pos
    have hcoupPos : (0 : ℚ) < Esp32.rot_total_steps / Esp32.gearRatio := by
      norm_num [Esp32.rot_total_steps, Esp32.gearRatio]
    have hargrad : 0 ≤ rho * Esp32.inOut_total_steps :=
      mul_nonneg h1 (by norm_num [Esp32.inOut_total_steps])
    refine ⟨⟨?_, ?_, ?_, ?_⟩,
      toLong (rho * Esp32.inOut_total_steps), Esp32.offsetStepsOf theta, ?_,
      toLong_le _ hargrad, lt_toLong_add_one _ hargrad, ?_, ?_, ?_, ?_⟩
    · rw [hr]
      exact abs_toLong_le _
    · rw [hr]
      exact abs_lt_abs_toLong_add_one _
    · intro ht
      rw [hr]
      exact toLong_nonneg _ (mul_nonneg ht (le_of_lt hfac))
    · intro ht
      rw [hr]
      exact toLong_nonpos _ (le_of_lt (mul_neg_of_neg_of_pos ht hfac))
    · show Esp32.inOutStepsOf theta (Esp32.clampRho rho) = _
      rw [hclamp, Esp32.inOutStepsOf]
    · exact abs_toLong_le _
    · exact abs_lt_abs_toLong_add_one _
    · intro ht
      exact toLong_nonneg _
        (mul_nonneg (div_nonneg ht (le_of_lt two_M_PI_pos)) (le_of_lt hcoupPos))
    · intro ht
      exact toLong_nonpos _
        (le_of_lt (mul_neg_of_neg_of_pos (div_neg_of_neg_of_pos ht two_M_PI_pos)
          hcoupPos))
  · have h3 : Esp32.offsetStepsOf (15708 / 10000) = 514 := by
      norm_num [Esp32.offsetStepsOf, Esp32.revolutionsOf, toLong, Esp32.rot_total_steps,
        Esp32.gearRatio, M_PI]
    refine ⟨?_, h3, ?_⟩
    · norm_num [Esp32.movePolar, Esp32.rotStepsOf, toLong, Esp32.rot_total_steps, M_PI]
    · show Esp32.inOutStepsOf (15708 / 10000) (Esp32.clampRho (1 / 2)) = 1807
      rw [show Esp32.clampRho (1 / 2) = 1 / 2 by norm_num [Esp32.clampRho],
        Esp32.inOutStepsOf, h3]
      norm_num [toLong, Esp32.inOut_total_steps]

/-- C1 witness: the amended theorem applied at the spec scenario waypoint,
discharging the rho-range hypotheses and the nonnegative-theta clause. -/
theorem C1_witness :
    0 ≤ (Esp32.movePolar (15708 / 10000) (1 / 2) Esp32.initialState).rotPosition :=
  ((C1_theorem.1 (15708 / 10000) (1 / 2) Esp32.initialState (by norm_num)
    (by norm_num)).1).2.2.1 (by norm_num)

/-- C2 counterexample: interpolating from theta = 0 to theta = -M_PI gives
the angular difference -M_PI, which both while loops leave untouched, so the
normalized value is -M_PI itself — it is not inside the half-open interval
(-pi, pi] the claim states. -/
theorem C2_counterexample :
    Esp32.normalizeAngle ((-M_PI) - 0) = -M_PI ∧
    ¬ (-M_PI < Esp32.normalizeAngle ((-M_PI) - 0)) := by
  have e1 : Esp32.downFuel (-M_PI) = 0 := by
    unfold Esp32.downFuel
    rw [show (-M_PI - M_PI : ℚ) = -(2 * M_PI) by ring, neg_div, div_self two_M_PI_ne]
    norm_num
  have e2 : Esp32.normDown (-M_PI) = -M_PI := by
    rw [Esp32.normDown, e1]
    rfl
  have e3 : Esp32.upFuel (-M_PI) = 1 := by
    unfold Esp32.upFuel
    rw [show (-M_PI - -M_PI : ℚ) = 0 by ring, zero_div]
    norm_num
  have e4 : Esp32.normalizeAngle (-M_PI) = -M_PI := by
    rw [Esp32.normalizeAngle, e2, e3]
    have e5 : Esp32.normUpFuel 1 (-M_PI) =
        if -M_PI < -M_PI then Esp32.normUpFuel 0 (-M_PI + 2 * M_PI) else -M_PI := rfl
    rw [e5, if_neg (lt_irrefl (-M_PI))]
  rw [sub_zero]
  exact ⟨e4, by rw [e4]; exact lt_irrefl (-M_PI)⟩

/-- C2 (amended): the interpolator normalizes the angular difference to the
closed interval [-pi, pi] — the value -pi is left at -pi, not mapped to pi —
and the normalized value differs from the raw difference by an integer
multiple of 2 pi; interpolating from theta = 0 to theta = 2 pi - e for
0 < e < pi moves all intermediate thetas backward, inside [-e, 0]. -/
theorem C2_theorem :
    (∀ startTheta endTheta : ℚ,
      -M_PI ≤ Esp32.normalizeAngle (endTheta - startTheta) ∧
      Esp32.normalizeAngle (endTheta - startTheta) ≤ M_PI ∧
      ∃ k : ℤ, Esp32.normalizeAngle (endTheta - startTheta) =
        (endTheta - startTheta) + 2 * M_PI * k) ∧
    (∀ e : ℚ, 0 < e → e < M_PI →
      Esp32.normalizeAngle ((2 * M_PI - e) - 0) = -e) ∧
    (∀ e rho rho2 r : ℚ, 0 < e → e < M_PI →
      ∀ p ∈ Esp32.interpPoints 0 rho (2 * M_PI - e) rho2 r,
        -e ≤ p.1 ∧ p.1 ≤ 0) := by
  refine ⟨?_, ?_, ?_⟩
  · intro startTheta endTheta
    exact ⟨Esp32.normalizeAngle_ge _, Esp32.normalizeAngle_le _,
      Esp32.normalizeAngle_congr _⟩
  · intro e h0 h1
    rw [sub_zero]
    exact Esp32.normalizeAngle_back e h0 h1
  · intro e rho rho2 r h0 h1 p hp
    rw [Esp32.interpPoints_mem] at hp
    obtain ⟨k, hk, rfl⟩ := hp
    set n : ℕ := Esp32.numSteps 0 rho (2 * M_PI - e) rho2 r with hn
    have hnpos : (0 : ℚ) < (n : ℚ) := by
      have := Esp32.numSteps_pos 0 rho (2 * M_PI - e) rho2 r
      exact_mod_cast lt_of_lt_of_le zero_lt_one (by exact_mod_cast this)
    have ht0 : (0 : ℚ) ≤ (k : ℚ) / (n : ℚ) :=
      div_nonneg (by positivity) (le_of_lt hnpos)
    have ht1 : (k : ℚ) / (n : ℚ) ≤ 1 := by
      rw [div_le_one hnpos]
      exact_mod_cast hk
    have hna : Esp32.normalizeAngle ((2 * M_PI - e) - 0) = -e := by
      rw [sub_zero]
      exact Esp32.normalizeAngle_back e h0 h1
    rw [hna]
    constructor
    · simp only [zero_add]
      nlinarith
    · simp only [zero_add]
      nlinarith

/-- C2 witness: the amended theorem applied at e = 1/100: interpolating from
theta 0 to theta 2 pi - 1/100 normalizes the difference to -1/100. -/
theorem C2_witness :
    Esp32.normalizeAngle ((2 * M_PI - 1 / 100) - 0) = -(1 / 100) :=
  C2_theorem.2.1 (1 / 100) (by norm_num) (by norm_num [M_PI])

/-- C3 counterexample: from (0,0) to (0, 1/1000) at resolution 4/10000 the
Euclidean distance is exactly 1/1000 and distance/resolution = 2.5; the code
truncates to 2 segments (3 waypoints) where the claimed ceil formula gives 3
segments (4 waypoints). -/
theorem C3_counterexample :
    Esp32.distSq 0 0 0 (1 / 1000) = ((1 / 1000 : ℚ)) ^ 2 ∧
    Esp32.numSteps 0 0 0 (1 / 1000) (4 / 10000) = 2 ∧
    max 1 (⌈((1 / 1000 : ℚ) / (4 / 10000))⌉.toNat) = 3 ∧
    (Esp32.interpPoints 0 0 0 (1 / 1000) (4 / 10000)).length = 3 ∧
    (2 : ℕ) ≠ 3 := by
  have hd : Esp32.distSq 0 0 0 (1 / 1000) = ((1 / 1000 : ℚ)) ^ 2 := by
    norm_num [Esp32.distSq]
  have hn : Esp32.numSteps 0 0 0 (1 / 1000) (4 / 10000) = 2 := by
    unfold Esp32.numSteps
    rw [show Esp32.distSq 0 0 0 (1 / 1000) / (4 / 10000 : ℚ) ^ 2 = 25 / 4 by
      rw [hd]; norm_num]
    have hs : Nat.sqrt 6 = 2 := by norm_num
    rw [show ⌊(25 / 4 : ℚ)⌋ = 6 by norm_num, show Int.toNat 6 = 6 from rfl, hs]
    rfl
  have hc : ⌈((1 / 1000 : ℚ) / (4 / 10000))⌉ = 3 := by
    rw [show ((1 / 1000 : ℚ) / (4 / 10000)) = 5 / 2 by norm_num]
    rw [Int.ceil_eq_iff]
    norm_num
  refine ⟨hd, hn, ?_, ?_, by norm_num⟩
  · rw [hc]
    rfl
  · rw [Esp32.interpPoints_length, hn]

/-- C3 (amended): the segment count is max(1, m) where m is the truncation
(floor, not ceil) of distance/resolution — characterized on squares:
(m*r)^2 is at most the squared distance, which is below ((m+1)*r)^2 — and the
interpolator yields exactly segmentCount + 1 waypoints, those at
t = step/segmentCount for step = 0..segmentCount. -/
theorem C3_theorem : ∀ a b c d r : ℚ, 0 < r →
    (∃ m : ℕ, Esp32.numSteps a b c d r = max 1 m ∧
      ((m : ℚ) * r) ^ 2 ≤ Esp32.distSq a b c d ∧
      Esp32.distSq a b c d < (((m : ℚ) + 1) * r) ^ 2) ∧
    (Esp32.interpPoints a b c d r).length = Esp32.numSteps a b c d r + 1 ∧
    (∀ p : ℚ × ℚ, p ∈ Esp32.interpPoints a b c d r ↔
      ∃ k : ℕ, k ≤ Esp32.numSteps a b c d r ∧
        p = (a + ((k : ℚ) / (Esp32.numSteps a b c d r : ℚ)) *
              Esp32.normalizeAngle (c - a),
             b + ((k : ℚ) / (Esp32.numSteps a b c d r : ℚ)) * (d - b))) :=
  fun a b c d r hr =>
    ⟨Esp32.numSteps_char a b c d r hr, Esp32.interpPoints_length a b c d r,
      Esp32.interpPoints_mem a b c d r⟩

/-- C3 witness: the amended theorem applied to the counterexample segment,
from (0,0) to (0, 1/1000) at the default resolution. -/
theorem C3_witness :
    (Esp32.interpPoints 0 0 0 (1 / 1000) (4 / 10000)).length =
      Esp32.numSteps 0 0 0 (1 / 1000) (4 / 10000) + 1 :=
  (C3_theorem 0 0 0 (1 / 1000) (4 / 10000) (by norm_num)).2.1

/-- C4 counterexample: homing does not touch totalRevolutions — starting from
a state whose totalRevolutions is 1, homing ends with totalRevolutions still
1, not 0 as the claim states.  (No reachable execution ever makes
totalRevolutions nonzero, which is why the slip is invisible in practice.) -/
theorem C4_counterexample :
    (Esp32.homing { Esp32.powerOnState with totalRevolutions := 1 }).totalRevolutions
      = 1 ∧ (1 : ℚ) ≠ 0 := by
  exact ⟨rfl, by norm_num⟩

/-- C4 (amended): after homing, both position references and
currentTheta/currentRho are zero, but totalRevolutions keeps whatever value
it had before homing. -/
theorem C4_theorem : ∀ s : Esp32.FirmwareState,
    (Esp32.homing s).inOutPosition = 0 ∧
    (Esp32.homing s).rotPosition = 0 ∧
    (Esp32.homing s).currentTheta = 0 ∧
    (Esp32.homing s).currentRho = 0 ∧
    (Esp32.homing s).totalRevolutions = s.totalRevolutions := by
  intro s
  exact ⟨rfl, rfl, rfl, rfl, rfl⟩

/-- C5: every batch line with more than the buffer capacity of 10 pairs
fills the buffer with exactly the first 10 pairs, the batch loop issues
motions whose destinations are exactly those 10 pairs in order, and the only
emitted token is the ready marker R — no error report for the dropped
excess pairs. -/
theorem C5_theorem : ∀ (ps : List (ℚ × ℚ)) (s : Esp32.FirmwareState),
    10 < ps.length →
    Esp32.fillBuffer ps = ps.take 10 ∧
    (Esp32.fillBuffer ps).length = 10 ∧
    (Esp32.buffMoves s.isFirstCoordinates s.currentTheta s.currentRho
        (Esp32.fillBuffer ps)).map Esp32.Move.target = ps.take 10 ∧
    (Esp32.dispatch s (Esp32.ParsedLine.batch ps)).2 = ["R"] := by
  intro ps s hlen
  have hfb : Esp32.fillBuffer ps = ps.take 10 := Esp32.fillBuffer_eq_take ps
  have hl : (Esp32.fillBuffer ps).length = 10 := by
    rw [hfb, List.length_take]
    omega
  refine ⟨hfb, hl, ?_, ?_⟩
  · rw [Esp32.buffMoves_targets, hfb]
  · show (Esp32.processBatch s (Esp32.fillBuffer ps)).2 = ["R"]
    rw [Esp32.processBatch, if_pos (by rw [hl]; norm_num : 0 < (Esp32.fillBuffer ps).length)]

/-- C5 witness: the theorem applied to a concrete 12-pair batch line, the
spec scenario instance of a line exceeding the capacity. -/
theorem C5_witness :
    (Esp32.dispatch Esp32.initialState
      (Esp32.ParsedLine.batch
        ([(0, 0), (1, 0), (2, 0), (3, 0), (4, 0), (5, 0), (6, 0), (7, 0),
          (8, 0), (9, 0), (10, 0), (11, 0)] : List (ℚ × ℚ)))).2 = ["R"] :=
  (C5_theorem
    ([(0, 0), (1, 0), (2, 0), (3, 0), (4, 0), (5, 0), (6, 0), (7, 0),
      (8, 0), (9, 0), (10, 0), (11, 0)] : List (ℚ × ℚ))
    Esp32.initialState (by decide)).2.2.2

/-- C6: SET_SPEED with no argument is rejected with INVALID_COMMAND and the
state is unchanged; a non-positive parsed value is rejected with
INVALID_SPEED and the state is unchanged; a positive value sets the maximum
speed of both axes and emits SPEED_SET followed by the ready marker. -/
theorem C6_theorem : ∀ s : Esp32.FirmwareState,
    Esp32.dispatch s (Esp32.ParsedLine.speed none) = (s, ["INVALID_COMMAND"]) ∧
    (∀ v : ℚ, v ≤ 0 →
      Esp32.dispatch s (Esp32.ParsedLine.speed (some v)) = (s, ["INVALID_SPEED"])) ∧
    (∀ v : ℚ, 0 < v →
      Esp32.dispatch s (Esp32.ParsedLine.speed (some v)) =
        ({ s with rotMaxSpeed := v, inOutMaxSpeed := v }, ["SPEED_SET", "R"])) := by
  intro s
  refine ⟨rfl, ?_, ?_⟩
  · intro v hv
    show (if v > 0 then
        ({ s with rotMaxSpeed := v, inOutMaxSpeed := v }, ["SPEED_SET", "R"])
      else (s, ["INVALID_SPEED"])) = (s, ["INVALID_SPEED"])
    rw [if_neg (not_lt.mpr hv)]
  · intro v hv
    show (if v > 0 then
        ({ s with rotMaxSpeed := v, inOutMaxSpeed := v }, ["SPEED_SET", "R"])
      else (s, ["INVALID_SPEED"])) =
      ({ s with rotMaxSpeed := v, inOutMaxSpeed := v }, ["SPEED_SET", "R"])
    rw [if_pos hv]

/-- C6 witness: the spec scenario SET_SPEED -5 and SET_SPEED 300 from the
startup state. -/
theorem C6_witness :
    Esp32.dispatch Esp32.initialState (Esp32.ParsedLine.speed (some (-5))) =
      (Esp32.initialState, ["INVALID_SPEED"]) ∧
    Esp32.dispatch Esp32.initialState (Esp32.ParsedLine.speed (some 300)) =
      ({ Esp32.initialState with rotMaxSpeed := 300, inOutMaxSpeed := 300 },
        ["SPEED_SET", "R"]) :=
  ⟨(C6_theorem Esp32.initialState).2.1 (-5) (by norm_num),
    (C6_theorem Esp32.initialState).2.2 300 (by norm_num)⟩

/-- C7: resetTheta is idempotent — a second call with no intervening motion
reproduces exactly the state after the first call, including both axis
position references, the zeroed theta and revolutions, and the
first-coordinates flag. -/
theorem C7_theorem : ∀ s : Esp32.FirmwareState,
    Esp32.resetTheta (Esp32.resetTheta s) = Esp32.resetTheta s := by
  intro s
  rfl

/-- Shift of the truncated coupling offset under one added revolution: the
esp32 offsetSteps grows by 2059 or 2060 (2058 possible only when the
pre-truncation offsets straddle zero), and by at least 2059 for nonnegative
theta. -/
theorem Esp32.offsetSteps_shift (theta : ℚ) :
    2058 ≤ Esp32.offsetStepsOf (theta + 2 * M_PI) - Esp32.offsetStepsOf theta ∧
    Esp32.offsetStepsOf (theta + 2 * M_PI) - Esp32.offsetStepsOf theta ≤ 2060 ∧
    (0 ≤ theta →
      2059 ≤ Esp32.offsetStepsOf (theta + 2 * M_PI) - Esp32.offsetStepsOf theta) := by
  have hcoup : Esp32.rot_total_steps / Esp32.gearRatio = (4119 / 2 : ℚ) := by
    norm_num [Esp32.rot_total_steps, Esp32.gearRatio]
  have hrev : Esp32.revolutionsOf (theta + 2 * M_PI) = Esp32.revolutionsOf theta + 1 := by
    unfold Esp32.revolutionsOf
    rw [add_div, div_self two_M_PI_ne]
  have hx : Esp32.revolutionsOf (theta + 2 * M_PI) *
        (Esp32.rot_total_steps / Esp32.gearRatio) =
      Esp32.revolutionsOf theta * (Esp32.rot_total_steps / Esp32.gearRatio) + 4119 / 2 := by
    rw [hrev, hcoup]
    ring
  have hEq : Esp32.offsetStepsOf (theta + 2 * M_PI) =
      toLong (Esp32.revolutionsOf theta * (Esp32.rot_total_steps / Esp32.gearRatio)
        + 4119 / 2) := by
    unfold Esp32.offsetStepsOf
    rw [hx]
  have hshift := toLong_shift_couple
    (Esp32.revolutionsOf theta * (Esp32.rot_total_steps / Esp32.gearRatio))
  have hoff : Esp32.offsetStepsOf theta =
      toLong (Esp32.revolutionsOf theta * (Esp32.rot_total_steps / Esp32.gearRatio)) := rfl
  refine ⟨?_, ?_, ?_⟩
  · rw [hEq, hoff]
    exact hshift.1
  · rw [hEq, hoff]
    exact hshift.2.1
  · intro h0
    rw [hEq, hoff]
    exact hshift.2.2
      (mul_nonneg (div_nonneg h0 (le_of_lt two_M_PI_pos)) (by rw [hcoup]; norm_num))

/-- C8 counterexample: the offsets of theta = 0 and theta = 2 pi are the
integers 0 and 2059, so their difference is 2059, not the full coupling unit
rotationTotalSteps/gearRatio = 2059.5 the claim states. -/
theorem C8_counterexample :
    Esp32.offsetStepsOf (2 * M_PI) - Esp32.offsetStepsOf 0 = 2059 ∧
    ((Esp32.offsetStepsOf (2 * M_PI) - Esp32.offsetStepsOf 0 : ℤ) : ℚ) ≠
      Esp32.rot_total_steps / Esp32.gearRatio := by
  have h1 : Esp32.offsetStepsOf (2 * M_PI) = 2059 := by
    unfold Esp32.offsetStepsOf Esp32.revolutionsOf
    rw [div_self two_M_PI_ne, one_mul]
    norm_num [toLong, Esp32.rot_total_steps, Esp32.gearRatio]
  have h2 : Esp32.offsetStepsOf 0 = 0 := by
    unfold Esp32.offsetStepsOf Esp32.revolutionsOf
    rw [zero_div, zero_mul]
    norm_num [toLong]
  rw [h1, h2]
  norm_num [Esp32.rot_total_steps, Esp32.gearRatio]

/-- C8 (amended): the pre-truncation offsets of two thetas exactly 2 pi apart
differ by exactly one coupling unit rotationTotalSteps/gearRatio = 2059.5,
and the stored integer offsetSteps differ by 2059 or 2060 — by at least 2059
for nonnegative theta, with 2058 also possible when the pre-truncation
offsets straddle zero. -/
theorem C8_theorem : ∀ theta : ℚ,
    Esp32.revolutionsOf (theta + 2 * M_PI) * (Esp32.rot_total_steps / Esp32.gearRatio) -
        Esp32.revolutionsOf theta * (Esp32.rot_total_steps / Esp32.gearRatio) =
      Esp32.rot_total_steps / Esp32.gearRatio ∧
    2058 ≤ Esp32.offsetStepsOf (theta + 2 * M_PI) - Esp32.offsetStepsOf theta ∧
    Esp32.offsetStepsOf (theta + 2 * M_PI) - Esp32.offsetStepsOf theta ≤ 2060 ∧
    (0 ≤ theta →
      2059 ≤ Esp32.offsetStepsOf (theta + 2 * M_PI) - Esp32.offsetStepsOf theta) := by
  intro theta
  have h := Esp32.offsetSteps_shift theta
  refine ⟨?_, h.1, h.2.1, h.2.2⟩
  have hrev : Esp32.revolutionsOf (theta + 2 * M_PI) = Esp32.revolutionsOf theta + 1 := by
    unfold Esp32.revolutionsOf
    rw [add_div, div_self two_M_PI_ne]
  rw [hrev]
  ring

/-- C8 witness: the amended theorem applied at theta = 0. -/
theorem C8_witness :
    2059 ≤ Esp32.offsetStepsOf (0 + 2 * M_PI) - Esp32.offsetStepsOf 0 :=
  (C8_theorem 0).2.2.2 (le_refl 0)

/-- C9 counterexample: at the waypoint (pi, 0) the esp32 code computes radial
target -1029 (it truncates the offset 1029.75 to 1029), while the claimed
formula radialBase - round(offset) gives -1030, so the claim misdescribes the
esp32 variant. -/
theorem C9_counterexample :
    Esp32.inOutStepsOf M_PI 0 = -1029 ∧
    toLong ((0 : ℚ) * Esp32.inOut_total_steps) -
      round (Esp32.revolutionsOf M_PI * (Esp32.rot_total_steps / Esp32.gearRatio)) =
        -1030 ∧
    (-1029 : ℤ) ≠ -1030 := by
  have hrev : Esp32.revolutionsOf M_PI = 1 / 2 := by
    unfold Esp32.revolutionsOf
    rw [show (2 * M_PI : ℚ) = M_PI * 2 by ring, div_mul_eq_div_div,
      div_self (ne_of_gt M_PI_pos)]
  have ho : Esp32.offsetStepsOf M_PI = 1029 := by
    unfold Esp32.offsetStepsOf
    rw [hrev]
    norm_num [toLong, Esp32.rot_total_steps, Esp32.gearRatio]
  refine ⟨?_, ?_, by norm_num⟩
  · unfold Esp32.inOutStepsOf
    rw [ho]
    norm_num [toLong, Esp32.inOut_total_steps]
  · rw [hrev]
    norm_num [toLong, round_eq, Esp32.inOut_total_steps, Esp32.rot_total_steps,
      Esp32.gearRatio]

/-- C9 (amended): the two variants apply the coupling with opposite signs and
different constants, both with truncation toward zero (not round): per added
revolution the esp32 radial target decreases by 2059 or 2060 steps while the
arduino radial target increases by exactly 1600 steps; at the waypoint
(2 pi, 0) the two movePolar step targets disagree (13730, -2059) versus
(16000, 1600). -/
theorem C9_theorem :
    (∀ theta rho : ℚ, 0 ≤ theta →
      Esp32.inOutStepsOf (theta + 2 * M_PI) rho ≤
          Esp32.inOutStepsOf theta rho - 2059 ∧
        Esp32.inOutStepsOf theta rho - 2060 ≤
          Esp32.inOutStepsOf (theta + 2 * M_PI) rho) ∧
    (∀ theta rho : ℚ, 0 ≤ theta →
      Arduino.inOutStepsOf (theta + 2 * M_PI) rho =
        Arduino.inOutStepsOf theta rho + 1600) ∧
    (Esp32.rotStepsOf (2 * M_PI) = 13730 ∧
      Arduino.rotStepsOf (2 * M_PI) = 16000 ∧
      Esp32.inOutStepsOf (2 * M_PI) 0 = -2059 ∧
      Arduino.inOutStepsOf (2 * M_PI) 0 = 1600 ∧
      (Esp32.rotStepsOf (2 * M_PI), Esp32.inOutStepsOf (2 * M_PI) 0) ≠
        (Arduino.rotStepsOf (2 * M_PI), Arduino.inOutStepsOf (2 * M_PI) 0)) := by
  refine ⟨?_, ?_, ?_⟩
  · intro theta rho h0
    have h := Esp32.offsetSteps_shift theta
    have h1 := h.2.1
    have h2 := h.2.2 h0
    unfold Esp32.inOutStepsOf
    omega
  · intro theta rho h0
    have hrev : (theta + 2 * M_PI) / (2 * M_PI) = theta / (2 * M_PI) + 1 := by
      rw [add_div, div_self two_M_PI_ne]
    have hx : ((theta + 2 * M_PI) / (2 * M_PI)) * (1600 : ℚ) =
        (theta / (2 * M_PI)) * 1600 + 1600 := by
      rw [hrev]
      ring
    have hx0 : 0 ≤ (theta / (2 * M_PI)) * (1600 : ℚ) :=
      mul_nonneg (div_nonneg h0 (le_of_lt two_M_PI_pos)) (by norm_num)
    unfold Arduino.inOutStepsOf Arduino.offsetStepsOf
    rw [hx, toLong_shift_1600 _ hx0]
    ring
  · have er : Esp32.rotStepsOf (2 * M_PI) = 13730 := by
      show toLong ((2 * M_PI) * ((13730 : ℚ) / (2 * M_PI))) = 13730
      rw [mul_comm, div_mul_cancel₀ _ two_M_PI_ne]
      norm_num [toLong]
    have eo : Esp32.offsetStepsOf (2 * M_PI) = 2059 := by
      unfold Esp32.offsetStepsOf Esp32.revolutionsOf
      rw [div_self two_M_PI_ne, one_mul]
      norm_num [toLong, Esp32.rot_total_steps, Esp32.gearRatio]
    have ei : Esp32.inOutStepsOf (2 * M_PI) 0 = -2059 := by
      unfold Esp32.inOutStepsOf
      rw [eo]
      norm_num [toLong, Esp32.inOut_total_steps]
    have ar : Arduino.rotStepsOf (2 * M_PI) = 16000 := by
      show toLong ((2 * M_PI) * ((16000 : ℚ) / (2 * M_PI))) = 16000
      rw [mul_comm, div_mul_cancel₀ _ two_M_PI_ne]
      norm_num [toLong]
    have ai : Arduino.inOutStepsOf (2 * M_PI) 0 = 1600 := by
      unfold Arduino.inOutStepsOf Arduino.offsetStepsOf
      rw [div_self two_M_PI_ne, one_mul]
      norm_num [toLong, Arduino.inOut_total_steps]
    refine ⟨er, ar, ei, ai, ?_⟩
    rw [er, ar, ei, ai]
    decide

/-- C9 witness: the arduino shift clause applied at theta = 0, rho = 0. -/
theorem C9_witness :
    Arduino.inOutStepsOf (0 + 2 * M_PI) 0 = Arduino.inOutStepsOf 0 0 + 1600 :=
  C9_theorem.2.1 0 0 (le_refl 0)

/-- Flag value after one batch line is dispatched: it stays set only if it
was set and the filled buffer was empty. -/
theorem Esp32.dispatch_batch_flag (s : Esp32.FirmwareState) (ps : List (ℚ × ℚ)) :
    (Esp32.dispatch s (Esp32.ParsedLine.batch ps)).1.isFirstCoordinates =
      (s.isFirstCoordinates && (Esp32.fillBuffer ps).isEmpty) := by
  show (Esp32.processBatch s (Esp32.fillBuffer ps)).1.isFirstCoordinates = _
  rw [Esp32.processBatch]
  split
  · exact Esp32.buffLoop_flag _ _ _ _
  · rename_i h
    have hnil : Esp32.fillBuffer ps = [] := List.length_eq_zero.mp (by omega)
    rw [hnil]
    simp

/-- C10: the first-coordinates flag is set at startup and by resetTheta; with
the flag set, the batch loop issues a direct move to the first buffered
waypoint and then only interpolated moves, each starting from the previous
waypoint; dispatching a nonempty batch clears the flag, and with the flag
clear every batch is realized purely by interpolated moves chained through
the previous waypoint. -/
theorem C10_theorem :
    Esp32.initialState.isFirstCoordinates = true ∧
    (∀ s : Esp32.FirmwareState, (Esp32.resetTheta s).isFirstCoordinates = true) ∧
    (∀ (a b : ℚ) (w : ℚ × ℚ) (l : List (ℚ × ℚ)),
      Esp32.buffMoves true a b (w :: l) =
        Esp32.Move.direct w.1 w.2 ::
          ((w :: l).zip l).map (fun q => Esp32.Move.interp q.1.1 q.1.2 q.2.1 q.2.2)) ∧
    (∀ (a b : ℚ) (l : List (ℚ × ℚ)),
      Esp32.buffMoves false a b l =
        (((a, b) :: l).zip l).map (fun q => Esp32.Move.interp q.1.1 q.1.2 q.2.1 q.2.2)) ∧
    (∀ (s : Esp32.FirmwareState) (ps : List (ℚ × ℚ)),
      s.isFirstCoordinates = true → ps ≠ [] →
        (Esp32.dispatch s (Esp32.ParsedLine.batch ps)).1.isFirstCoordinates = false) ∧
    (∀ (s : Esp32.FirmwareState) (ps : List (ℚ × ℚ)),
      s.isFirstCoordinates = false →
        (Esp32.dispatch s (Esp32.ParsedLine.batch ps)).1.isFirstCoordinates = false) := by
  refine ⟨rfl, fun s => rfl, ?_, ?_, ?_, ?_⟩
  · intro a b w l
    exact Esp32.buffMoves_true_shape w l a b
  · intro a b l
    exact Esp32.buffMoves_false_zip l a b
  · intro s ps hflag hne
    obtain ⟨p, rest, rfl⟩ := List.exists_cons_of_ne_nil hne
    rw [Esp32.dispatch_batch_flag, hflag]
    rw [Esp32.fillBuffer_eq_take, show Esp32.BUFFER_SIZE = 9 + 1 from rfl,
      List.take_succ_cons]
    simp
  · intro s ps hflag
    rw [Esp32.dispatch_batch_flag, hflag]
    simp

/-- C10 witness: dispatching a one-waypoint batch from the startup state
clears the first-coordinates flag. -/
theorem C10_witness :
    (Esp32.dispatch Esp32.initialState
      (Esp32.ParsedLine.batch ([((1 : ℚ), (0 : ℚ))]))).1.isFirstCoordinates = false :=
  C10_theorem.2.2.2.2.1 Esp32.initialState [(1, 0)] rfl (by simp)
